import Mathlib

/-!
Shallow embedding of the leakhound static analyzer (github.com/nilpoona/leakhound)
for checking its natural-language specification against the code.

The embedding follows the Go sources:
  - detector/detector.go        (DataFlowCollector, CheckArgForSensitiveData)
  - detector/log_detector.go    (LogDetector.IsLogCall)
  - the VarTracker / FieldCollector files (taint tracking, field catalog)
  - reporter/sarif/types.go and reporter/sarif/aggregator.go

Go ASTs with their type-checker annotations are modelled as annotated trees:
every expression node carries the answers the types.Info oracle would give
(static type, Uses/Defs resolution).  Go maps keyed by symbol identity are
modelled as association lists whose insert replaces an existing key, so that
the length of the list mirrors len(map).  The mutation of the receiver state
in Go methods is modelled by explicit state passing.
-/

namespace Leakhound

/-- Single apostrophe character, used to rebuild the exact Go message texts. -/
def sq : String := String.singleton (Char.ofNat 39)

/-- Kind of a resolved object, distinguishing *types.Var and *types.Func. -/
inductive SymKind where
  | var
  | func
  | other
deriving DecidableEq

/-- Static types as far as the detector inspects them: named types carry the
short name and the declaring package path (types.Named with its Obj), pointer
types carry their element, and everything else is collapsed to basic. -/
inductive GoType where
  | named (name : String) (pkg : Option String)
  | pointer (elem : GoType)
  | basic
deriving DecidableEq

/-- A resolved symbol (types.Object): compared by identity, hence the id field.
recv is the receiver type of a method signature, none for non-methods. -/
structure Symbol where
  id : Nat
  name : String
  kind : SymKind
  pkg : Option String
  recv : Option GoType
deriving DecidableEq

/-- Annotated expression tree: each node carries the type oracle answers.
ident carries Uses and Defs resolution; selector carries the resolution of its
Sel identifier; paren stands for any other composite node ast.Inspect descends
through; basic for leaves the detector never matches. -/
inductive Expr where
  | ident (name : String) (uses : Option Symbol) (defs : Option Symbol)
      (ty : Option GoType) (pos : Nat)
  | selector (base : Expr) (sel : String) (selUses : Option Symbol)
      (ty : Option GoType) (pos : Nat)
  | call (fn : Expr) (args : List Expr) (ty : Option GoType) (pos : Nat)
  | paren (inner : Expr) (ty : Option GoType) (pos : Nat)
  | basic (ty : Option GoType) (pos : Nat)

/-- The static type annotation of a node (pass.TypesInfo.Types). -/
def typeOfE : Expr → Option GoType
  | .ident _ _ _ ty _ => ty
  | .selector _ _ _ ty _ => ty
  | .call _ _ ty _ => ty
  | .paren _ ty _ => ty
  | .basic ty _ => ty

/-- Source position of a node. -/
def posOfE : Expr → Nat
  | .ident _ _ _ _ p => p
  | .selector _ _ _ _ p => p
  | .call _ _ _ p => p
  | .paren _ _ p => p
  | .basic _ p => p

/-- Single pointer dereference, as in: if ptr, ok := typ.(*types.Pointer); ok. -/
def derefOnce : GoType → GoType
  | .pointer e => e
  | t => t

/-- View a type as a named type (types.Named with its object). -/
def asNamed : GoType → Option (String × Option String)
  | .named n p => some (n, p)
  | _ => none

/-- Whether pat occurs at the head of l. -/
def startsWithSeq {α : Type} [DecidableEq α] : List α → List α → Bool
  | [], _ => true
  | _ :: _, [] => false
  | a :: ps, b :: bs => if a = b then startsWithSeq ps bs else false

/-- Whether pat occurs contiguously anywhere in l (strings.Contains). -/
def containsSeq {α : Type} [DecidableEq α] : List α → List α → Bool
  | pat, [] => startsWithSeq pat []
  | pat, b :: bs => startsWithSeq pat (b :: bs) || containsSeq pat bs

/-- HasSensitiveTag from the field collector: the tag contains the literal
sensitive:"true" or its backslash-escaped form. -/
def HasSensitiveTag (tag : String) : Bool :=
  containsSeq ("sensitive:\"true\"").data tag.data ||
  containsSeq ("sensitive:\\\"true\\\"").data tag.data

/-- Key of the sensitive-field catalog: short type name and field name. -/
structure sensitiveField where
  typeName : String
  fieldName : String
deriving DecidableEq

/-- Membership in the collected sensitive-field catalog. -/
def sensitiveFieldMem (cat : List sensitiveField) (tn f : String) : Bool :=
  cat.contains ⟨tn, f⟩

/-- hasAnySensitiveFields: some catalog entry has this short type name. -/
def hasAnySensitiveFields (typeName : String) (cat : List sensitiveField) : Bool :=
  cat.any (fun sf => sf.typeName = typeName)

/-- One field of a struct underlying type, as the type checker shows it. -/
structure FieldInfo where
  name : String
  tag : String
  embedded : Bool
  ty : GoType
deriving DecidableEq

/-- Underlying struct of a named type. -/
structure StructInfo where
  fields : List FieldInfo
deriving DecidableEq

/-- The type-checker view: which named types have a struct underlying type,
keyed by full identity (short name, declaring package path). -/
abbrev TypeEnv := List ((String × Option String) × StructInfo)

/-- Lookup of a named type underlying struct (named.Underlying().(*types.Struct)). -/
def lookupEnv (env : TypeEnv) (tn : String) (pk : Option String) : Option StructInfo :=
  match env with
  | [] => none
  | (k, s) :: rest => if k = (tn, pk) then some s else lookupEnv rest tn pk

mutual
/-- checkStructForSensitiveFields, with the call-stack depth made explicit as
fuel.  The visited map is keyed by the short type name only and is threaded
through sibling recursive calls, mirroring the shared Go map.  none means the
recursion would have descended deeper than the given fuel. -/
def checkStructForSensitiveFields :
    Nat → TypeEnv → String → Option String → List String →
    Option (Bool × List String)
  | 0, _, _, _, _ => none
  | Nat.succ fuel, env, tn, pk, visited =>
    match lookupEnv env tn pk with
    | none => some (false, visited)
    | some s =>
      if tn ∈ visited then some (false, visited)
      else checkStructFieldsLoop fuel env s.fields (tn :: visited)

/-- The field loop of checkStructForSensitiveFields. -/
def checkStructFieldsLoop :
    Nat → TypeEnv → List FieldInfo → List String → Option (Bool × List String)
  | _, _, [], visited => some (false, visited)
  | fuel, env, f :: fs, visited =>
    if HasSensitiveTag f.tag then some (true, visited)
    else if f.embedded then
      match asNamed (derefOnce f.ty) with
      | some (n, p) =>
        match checkStructForSensitiveFields fuel env n p visited with
        | none => none
        | some (true, v) => some (true, v)
        | some (false, v) => checkStructFieldsLoop fuel env fs v
      | none => checkStructFieldsLoop fuel env fs visited
    else checkStructFieldsLoop fuel env fs visited
end

mutual
/-- checkSensitiveFieldFromTypeInfo, with the call-stack depth made explicit
as fuel.  Unlike the struct walk above, the Go source has no visited set here;
none means the recursion would have descended deeper than the given fuel. -/
def checkSensitiveFieldFromTypeInfo :
    Nat → TypeEnv → String → Option String → String → Option Bool
  | 0, _, _, _, _ => none
  | Nat.succ fuel, env, tn, pk, fieldName =>
    match lookupEnv env tn pk with
    | none => some false
    | some s => checkFieldLoop fuel env s.fields fieldName

/-- The field loop of checkSensitiveFieldFromTypeInfo. -/
def checkFieldLoop : Nat → TypeEnv → List FieldInfo → String → Option Bool
  | _, _, [], _ => some false
  | fuel, env, f :: fs, fieldName =>
    if f.name = fieldName then some (HasSensitiveTag f.tag)
    else if f.embedded then
      match asNamed (derefOnce f.ty) with
      | some (n, p) =>
        match checkSensitiveFieldFromTypeInfo fuel env n p fieldName with
        | none => none
        | some true => some true
        | some false => checkFieldLoop fuel env fs fieldName
      | none => checkFieldLoop fuel env fs fieldName
    else checkFieldLoop fuel env fs fieldName
end

/-- Sufficient recursion depth for the visited-bounded struct walk. -/
def structFuelBound (env : TypeEnv) : Nat := env.length + 2

/-- hasAnySensitiveFieldsFromType: total wrapper around the struct walk with a
fresh visited map; the visited set makes the bound sufficient. -/
def hasAnySensitiveFieldsFromType (env : TypeEnv) (tn : String) (pk : Option String) : Bool :=
  match checkStructForSensitiveFields (structFuelBound env) env tn pk [] with
  | some (b, _) => b
  | none => false

/-- Total wrapper for the field walk, defaulting to false where the source
recursion would not return (it has no visited set). -/
def checkSensitiveFieldTotal (env : TypeEnv) (tn : String) (pk : Option String)
    (fieldName : String) : Bool :=
  (checkSensitiveFieldFromTypeInfo (structFuelBound env) env tn pk fieldName).getD false

/-! ## The sink recognizer (detector/log_detector.go) -/

/-- isSlogStyleMethod. -/
def isSlogStyleMethod (name : String) : Bool :=
  name = "Info" || name = "Error" ||
  name = "Warn" || name = "Debug" ||
  name = "InfoContext" || name = "ErrorContext" ||
  name = "WarnContext" || name = "DebugContext" ||
  name = "Log" || name = "LogAttrs"

/-- isLogStyleMethod. -/
def isLogStyleMethod (name : String) : Bool :=
  name = "Fatal" || name = "Fatalf" || name = "Fatalln" ||
  name = "Panic" || name = "Panicf" || name = "Panicln" ||
  name = "Print" || name = "Printf" || name = "Println" ||
  name = "Output"

/-- isFmtStyleMethod. -/
def isFmtStyleMethod (name : String) : Bool :=
  name = "Fprint" || name = "Fprintf" ||
  name = "Fprintln" || name = "Print" ||
  name = "Printf" || name = "Println"

/-- isSlogLoggerType: pointer to the named type Logger of package log/slog. -/
def isSlogLoggerType (t : GoType) : Bool :=
  match t with
  | .pointer (.named n p) => n = "Logger" && p = some "log/slog"
  | _ => false

/-- isLogLoggerType: pointer to the named type Logger of package log. -/
def isLogLoggerType (t : GoType) : Bool :=
  match t with
  | .pointer (.named n p) => n = "Logger" && p = some "log"
  | _ => false

/-- One configured method group: receiver spec "T" or "*T" with method names. -/
structure MethodRule where
  receiver : String
  names : List String

/-- One configured sink target. -/
structure Target where
  package : String
  functions : List String
  methods : List MethodRule

/-- The user configuration passed to the log detector. -/
structure Config where
  targets : List Target

/-- isMatchingReceiverType: receiver spec "*T" matches only pointer receivers
of type T in the configured package, "T" only value receivers. -/
def isMatchingReceiverType (t : GoType) (pkgPath configReceiver : String) : Bool :=
  match configReceiver.data with
  | [] =>
    match t with
    | .named n p => n = String.mk [] && p = some pkgPath
    | _ => false
  | c :: rest =>
    if c = Char.ofNat 42 then
      match t with
      | .pointer (.named n p) => n = String.mk rest && p = some pkgPath
      | _ => false
    else
      match t with
      | .named n p => n = configReceiver && p = some pkgPath
      | _ => false

/-- isCustomLogCall: match against the configured targets. -/
def isCustomLogCall (c : Config) (pkgPath funcName : String) (obj : Symbol) : Bool :=
  c.targets.any fun t =>
    if t.package ≠ pkgPath then false
    else if t.functions.contains funcName then true
    else
      match obj.recv with
      | none => false
      | some rt =>
        t.methods.any fun mr =>
          isMatchingReceiverType rt pkgPath mr.receiver && mr.names.contains funcName

/-- IsLogCall from LogDetector: the callee must be syntactically a selector
whose Sel resolves (Uses) to a *types.Func with an owning package; then the
built-in package sets, the built-in logger receiver types, and finally the
configuration are consulted. -/
def IsLogCall (cfg : Option Config) (call : Expr) : Bool :=
  match call with
  | .call (.selector _ m (some obj) _ _) _ _ _ =>
    if obj.kind ≠ SymKind.func then false
    else
      match obj.pkg with
      | none => false
      | some pkgPath =>
        if pkgPath = "log/slog" then isSlogStyleMethod m
        else if pkgPath = "log" then isLogStyleMethod m
        else if pkgPath = "fmt" then isFmtStyleMethod m
        else
          let recvHit :=
            match obj.recv with
            | some rt =>
              (isSlogLoggerType rt && isSlogStyleMethod m) ||
              (isLogLoggerType rt && isLogStyleMethod m)
            | none => false
          if recvHit then true
          else
            match cfg with
            | some c => isCustomLogCall c pkgPath m obj
            | none => false
  | _ => false

/-! ## Taint facts (the VarTracker state) -/

/-- Provenance record of a tainted value (SensitiveSource). -/
structure SensitiveSource where
  fieldName : String
  position : Nat
  flowPath : List String
deriving DecidableEq

/-- Association list standing for a Go map keyed by symbol identity. -/
abbrev SymMap := List (Symbol × SensitiveSource)

/-- Map lookup. -/
def lookupA (m : SymMap) (k : Symbol) : Option SensitiveSource :=
  match m with
  | [] => none
  | (k2, v) :: rest => if k2 = k then some v else lookupA rest k

/-- Map insert: replaces the value when the key is present, so that list
length mirrors len of the Go map. -/
def insertA (m : SymMap) (k : Symbol) (v : SensitiveSource) : SymMap :=
  match m with
  | [] => [(k, v)]
  | (k2, v2) :: rest =>
    if k2 = k then (k2, v) :: rest else (k2, v2) :: insertA rest k v

/-- The three taint maps of the VarTracker. -/
structure TaintState where
  vars : SymMap
  funcs : SymMap
  params : SymMap
deriving DecidableEq

/-- getFunctionObject: resolve a callee expression through Uses. -/
def getFunctionObject : Expr → Option Symbol
  | .ident _ uses _ _ _ => uses
  | .selector _ _ selUses _ _ => selUses
  | _ => none

/-- Resolved callee of a call expression (other nodes resolve to nothing). -/
def resolvedCallee : Expr → Option Symbol
  | .call fn _ _ _ => getFunctionObject fn
  | _ => none

/-- checkSensitiveFieldAccess: a selector whose base type, after one pointer
dereference, is a named struct with a catalog-sensitive field yields a fresh
SensitiveSource for Type.Field. -/
def checkSensitiveFieldAccess (cat : List sensitiveField) (base : Expr)
    (fieldName : String) (pos : Nat) : Option SensitiveSource :=
  match typeOfE base with
  | none => none
  | some t =>
    match asNamed (derefOnce t) with
    | none => none
    | some (tn, _) =>
      if sensitiveFieldMem cat tn fieldName then
        some { fieldName := tn ++ "." ++ fieldName
               position := pos
               flowPath := [tn ++ "." ++ fieldName] }
      else none

/-- checkSensitiveExpr: selector, tainted variable use, or tainted call. -/
def checkSensitiveExpr (cat : List sensitiveField) (st : TaintState) :
    Expr → Option SensitiveSource
  | .selector base f _ _ pos => checkSensitiveFieldAccess cat base f pos
  | .ident _ uses _ _ _ =>
    match uses with
    | some u =>
      if u.kind = SymKind.var then lookupA st.vars u else none
    | none => none
  | .call fn _ _ _ =>
    match getFunctionObject fn with
    | some h => lookupA st.funcs h
    | none => none
  | _ => none

/-- The Defs resolution of an assignment LHS, kept when it is a variable,
exactly the switch at the top of CollectAssignment. -/
def defVarOf : Expr → Option Symbol
  | .ident _ _ (some d) _ _ => if d.kind = SymKind.var then some d else none
  | _ => none

/-- The indexed pair loop of CollectAssignment. -/
def collectAssignPairs (cat : List sensitiveField) :
    TaintState → List Expr → List Expr → TaintState
  | st, [], _ => st
  | st, _ :: _, [] => st
  | st, l :: ls, r :: rs =>
    let st2 :=
      match defVarOf l with
      | none => st
      | some v =>
        match checkSensitiveExpr cat st r with
        | none => st
        | some src => { st with vars := insertA st.vars v src }
    collectAssignPairs cat st2 ls rs

/-- An assignment statement (ast.AssignStmt). -/
structure AssignStmt where
  lhs : List Expr
  rhs : List Expr

/-- CollectAssignment: each (lhs, rhs) pair taints the LHS symbol when the
LHS identifier resolves as a definition of a variable and the RHS classifies
as sensitive. -/
def CollectAssignment (cat : List sensitiveField) (st : TaintState)
    (a : AssignStmt) : TaintState :=
  collectAssignPairs cat st a.lhs a.rhs

/-- CollectReturn: a return with exactly one sensitive result marks the
current function as tainted. -/
def CollectReturn (cat : List sensitiveField) (st : TaintState)
    (cur : Option Symbol) (results : List Expr) : TaintState :=
  match results with
  | [r] =>
    match checkSensitiveExpr cat st r with
    | some src =>
      match cur with
      | some f => { st with funcs := insertA st.funcs f src }
      | none => st
    | none => st
  | _ => st

/-! ## Function bodies and the function registry -/

/-- One name of a parameter group, with its Defs resolution. -/
structure ParamName where
  name : String
  defSym : Option Symbol

/-- One parameter group (one *ast.Field of the parameter list, possibly
multi-named or anonymous). -/
structure ParamGroup where
  names : List ParamName

/-- Statements of a function body as far as the collector distinguishes them. -/
inductive Stmt where
  | assignS (a : AssignStmt)
  | retS (results : List Expr)
  | exprS (e : Expr)

/-- A function or method declaration in the registry: parameter groups and
an optional body, flattened to its statement list. -/
structure FuncDecl where
  params : List ParamGroup
  body : Option (List Stmt)

mutual
/-- All call expressions inside an expression, in ast.Inspect preorder
(the node itself first, then Fun, then the arguments). -/
def callsInExpr : Expr → List Expr
  | .ident _ _ _ _ _ => []
  | .basic _ _ => []
  | .paren inner _ _ => callsInExpr inner
  | .selector base _ _ _ _ => callsInExpr base
  | .call fn args ty pos =>
    .call fn args ty pos :: (callsInExpr fn ++ callsInList args)

/-- All call expressions inside a list of expressions, in order. -/
def callsInList : List Expr → List Expr
  | [] => []
  | e :: es => callsInExpr e ++ callsInList es
end

/-- All call expressions of a statement, in traversal order. -/
def callsInStmt : Stmt → List Expr
  | .assignS a => callsInList a.lhs ++ callsInList a.rhs
  | .retS rs => callsInList rs
  | .exprS e => callsInExpr e

/-- All call expressions of a body. -/
def callsInBody : Option (List Stmt) → List Expr
  | none => []
  | some stmts => stmts.flatMap callsInStmt

/-- The function registry funcDefs: declarations keyed by defined symbol. -/
abbrev Registry := List (Symbol × FuncDecl)

/-- Registry lookup by symbol identity. -/
def lookupReg (r : Registry) (k : Symbol) : Option FuncDecl :=
  match r with
  | [] => none
  | (k2, d) :: rest => if k2 = k then some d else lookupReg rest k

/-! ## The fixed-point interprocedural expansion (VarTracker.AnalyzeDataFlow) -/

/-- Taint every named parameter of one group from one sensitive argument:
the inner loop over param.Names, writing both sensitiveParams and
sensitiveVars with the extended flow path. -/
def taintGroup (st : TaintState) (argPos : Nat) (src : SensitiveSource) :
    List ParamName → TaintState
  | [] => st
  | pn :: rest =>
    let st2 :=
      match pn.defSym with
      | some pobj =>
        if pobj.kind = SymKind.var then
          let newSource : SensitiveSource :=
            { fieldName := src.fieldName
              position := argPos
              flowPath := src.flowPath ++ ["parameter " ++ sq ++ pn.name ++ sq] }
          { st with
            params := insertA st.params pobj newSource
            vars := insertA st.vars pobj newSource }
        else st
      | none => st
    taintGroup st2 argPos src rest

/-- The argument-to-parameter mapping loop of analyzeFunctionCalls: walk the
arguments, advancing the parameter index past any group with at least one
name, and taint the group bound to each sensitive argument. -/
def mapArgsToParams (cat : List sensitiveField) (params : List ParamGroup) :
    TaintState → List Expr → Nat → TaintState
  | st, [], _ => st
  | st, a :: as2, paramIdx =>
    match params.get? paramIdx with
    | none => st
    | some grp =>
      let st2 :=
        match checkSensitiveExpr cat st a with
        | some src => taintGroup st (posOfE a) src grp.names
        | none => st
      let paramIdx2 := if grp.names.length > 0 then paramIdx + 1 else paramIdx
      mapArgsToParams cat params st2 as2 paramIdx2

/-- Processing of one call expression inside a body: resolve the callee,
keep only same-package functions present in the registry, then map the
arguments onto the callee parameter groups. -/
def analyzeCall (cat : List sensitiveField) (pkg : String) (reg : Registry)
    (st : TaintState) (c : Expr) : TaintState :=
  match c with
  | .call fn args _ _ =>
    match getFunctionObject fn with
    | none => st
    | some calledFunc =>
      match calledFunc.pkg with
      | none => st
      | some p =>
        if p ≠ pkg then st
        else
          match lookupReg reg calledFunc with
          | none => st
          | some calledDecl =>
            mapArgsToParams cat calledDecl.params st args 0
  | _ => st

/-- Fold of analyzeCall over a list of call expressions. -/
def analyzeCalls (cat : List sensitiveField) (pkg : String) (reg : Registry) :
    TaintState → List Expr → TaintState
  | st, [] => st
  | st, c :: cs => analyzeCalls cat pkg reg (analyzeCall cat pkg reg st c) cs

/-- analyzeFunctionCalls: skip an already-visited function, otherwise mark it
visited and process every call expression of its body. -/
def analyzeFunctionCalls (cat : List sensitiveField) (pkg : String)
    (reg : Registry) (st : TaintState) (visited : List Symbol)
    (funcObj : Symbol) (decl : FuncDecl) : TaintState × List Symbol :=
  if funcObj ∈ visited then (st, visited)
  else
    let visited2 := funcObj :: visited
    match decl.body with
    | none => (st, visited2)
    | some stmts => (analyzeCalls cat pkg reg st (stmts.flatMap callsInStmt), visited2)

/-- One round of AnalyzeDataFlow: iterate the registry in the given order with
a fresh visited map, tracking through the changed flag whether the size of
sensitiveVars grew while processing any function. -/
def roundFold (cat : List sensitiveField) (pkg : String) (reg : Registry) :
    TaintState × List Symbol × Bool → List (Symbol × FuncDecl) →
    TaintState × List Symbol × Bool
  | acc, [] => acc
  | (st, visited, changed), (funcObj, decl) :: rest =>
    let beforeCount := st.vars.length
    let (st2, visited2) := analyzeFunctionCalls cat pkg reg st visited funcObj decl
    let changed2 := changed || decide (st2.vars.length > beforeCount)
    roundFold cat pkg reg (st2, visited2, changed2) rest

/-- One complete round over one iteration order of the registry map. -/
def roundRun (cat : List sensitiveField) (pkg : String) (reg : Registry)
    (st : TaintState) (order : List (Symbol × FuncDecl)) : TaintState × Bool :=
  let (st2, _, changed) := roundFold cat pkg reg (st, [], false) order
  (st2, changed)

/-- AnalyzeDataFlow: up to five rounds, stopping as soon as a round taints no
new variable.  The list of orders supplies, per round, the iteration order of
the funcDefs map (Go map iteration order is arbitrary); the source runs with
a list of five orders. -/
def runRounds (cat : List sensitiveField) (pkg : String) (reg : Registry) :
    List (List (Symbol × FuncDecl)) → TaintState → TaintState
  | [], st => st
  | o :: os, st =>
    let (st2, changed) := roundRun cat pkg reg st o
    if changed then runRounds cat pkg reg os st2 else st2

/-- AnalyzeDataFlow with the maxPasses = 5 bound made explicit: the caller
passes exactly five per-round iteration orders. -/
def AnalyzeDataFlow (cat : List sensitiveField) (pkg : String) (reg : Registry)
    (orders : List (List (Symbol × FuncDecl))) (st : TaintState) : TaintState :=
  runRounds cat pkg reg orders st

/-! ## Phase-1 collection walk (DataFlowCollector.collectFromFunction) -/

/-- Log calls found inside one expression: all call nodes, in preorder, that
IsLogCall accepts. -/
def logCallsInExpr (cfg : Option Config) (e : Expr) : List Expr :=
  (callsInExpr e).filter (IsLogCall cfg)

/-- Walk one statement of a function body: track assignments and returns for
taint seeding, and append every log call encountered, in traversal order. -/
def collectStmt (cat : List sensitiveField) (cfg : Option Config)
    (cur : Option Symbol) (acc : TaintState × List Expr) (s : Stmt) :
    TaintState × List Expr :=
  match s with
  | .assignS a =>
    (CollectAssignment cat acc.1 a,
     acc.2 ++ (callsInList a.lhs ++ callsInList a.rhs).filter (IsLogCall cfg))
  | .retS rs =>
    (CollectReturn cat acc.1 cur rs,
     acc.2 ++ (callsInList rs).filter (IsLogCall cfg))
  | .exprS e =>
    (acc.1, acc.2 ++ logCallsInExpr cfg e)

/-- collectFromFunction: walk the body statements with the current function
context set to the declared symbol. -/
def collectFromFunction (cat : List sensitiveField) (cfg : Option Config)
    (acc : TaintState × List Expr) (funcObj : Symbol) (decl : FuncDecl) :
    TaintState × List Expr :=
  match decl.body with
  | none => acc
  | some stmts => stmts.foldl (collectStmt cat cfg (some funcObj)) acc

/-- Phase 1a: walk every function declaration in file order, seeding taint
and accumulating the ordered list of recognized sink calls. -/
def collectProgram (cat : List sensitiveField) (cfg : Option Config)
    (prog : Registry) : TaintState × List Expr :=
  prog.foldl (fun acc e => collectFromFunction cat cfg acc e.1 e.2)
    (⟨[], [], []⟩, [])

/-! ## The leak detector (DataFlowCollector.CheckArgForSensitiveData) -/

/-- A reported finding. -/
structure Finding where
  pos : Nat
  message : String
  ruleID : String
deriving DecidableEq

/-- The read-only facts the Phase-2 detector consults. -/
structure Facts where
  fields : List sensitiveField
  vars : SymMap
  funcs : SymMap
  params : SymMap
  reg : Registry
  env : TypeEnv

/-- Message of a sensitive-var finding. -/
def varMessage (name fieldName : String) : String :=
  "variable \"" ++ name ++ "\" contains sensitive field \"" ++ fieldName ++
  "\" (tagged with sensitive:\"true\")"

/-- Message of a sensitive-call finding. -/
def callMessage (fieldName : String) : String :=
  "function call returns sensitive field \"" ++ fieldName ++
  "\" (tagged with sensitive:\"true\")"

/-- Message of a sensitive-struct finding. -/
def structMessage (typeName : String) : String :=
  "struct " ++ sq ++ typeName ++ sq ++
  " contains sensitive fields and should not be logged entirely"

/-- Message of a sensitive-field finding. -/
def fieldMessage (typeName fieldName : String) : String :=
  "sensitive field " ++ sq ++ typeName ++ "." ++ fieldName ++ sq ++
  " should not be logged (tagged with sensitive:\"true\")"

/-- Rule 1: the argument is an identifier whose Uses resolution is a variable
present in sensitiveVars (IsSensitiveVar). -/
def rule1Var (F : Facts) : Expr → Option Finding
  | .ident name (some u) _ _ pos =>
    if u.kind = SymKind.var then
      match lookupA F.vars u with
      | some src => some ⟨pos, varMessage name src.fieldName, "sensitive-var"⟩
      | none => none
    else none
  | _ => none

/-- Rule 2: the argument is a call whose resolved callee is in sensitiveFuncs
(IsSensitiveCall). -/
def rule2Call (F : Facts) : Expr → Option Finding
  | .call fn _ _ pos =>
    match getFunctionObject fn with
    | some h =>
      match lookupA F.funcs h with
      | some src => some ⟨pos, callMessage src.fieldName, "sensitive-call"⟩
      | none => none
    | none => none
  | _ => none

/-- Rule 3: the argument type, after one pointer dereference, is a named type
that the local catalog or the type-info struct walk marks sensitive. -/
def rule3Struct (F : Facts) (e : Expr) : Option Finding :=
  match typeOfE e with
  | none => none
  | some t =>
    match asNamed (derefOnce t) with
    | none => none
    | some (tn, pk) =>
      if hasAnySensitiveFields tn F.fields then
        some ⟨posOfE e, structMessage tn, "sensitive-struct"⟩
      else if hasAnySensitiveFieldsFromType F.env tn pk then
        some ⟨posOfE e, structMessage tn, "sensitive-struct"⟩
      else none

/-- checkFieldAccessWithCollector: report a selector whose base type, after
one pointer dereference, is a named type with the selected field sensitive in
the catalog, or failing that, in the type-info field walk. -/
def checkFieldAccessWithCollector (F : Facts) (base : Expr)
    (fieldName : String) (pos : Nat) : List Finding :=
  match typeOfE base with
  | none => []
  | some t =>
    match asNamed (derefOnce t) with
    | none => []
    | some (tn, pk) =>
      if sensitiveFieldMem F.fields tn fieldName then
        [⟨pos, fieldMessage tn fieldName, "sensitive-field"⟩]
      else if checkSensitiveFieldTotal F.env tn pk fieldName then
        [⟨pos, fieldMessage tn fieldName, "sensitive-field"⟩]
      else []

mutual
/-- CheckArgForSensitiveData: first-match-wins over rules 1 to 3, otherwise
the ast.Inspect walk of rule 4, whose action on the top node is spelled out
in place.  The receiver state is threaded explicitly; findings are returned
in emission order. -/
def CheckArgForSensitiveData (F : Facts) (e : Expr) : Facts × List Finding :=
  match rule1Var F e with
  | some f => (F, [f])
  | none =>
    match rule2Call F e with
    | some f => (F, [f])
    | none =>
      match rule3Struct F e with
      | some f => (F, [f])
      | none =>
        match e with
        | .ident _ _ _ _ _ => (F, [])
        | .basic _ _ => (F, [])
        | .paren inner _ _ => inspectArg F inner
        | .selector base s _ _ pos =>
          let hits := checkFieldAccessWithCollector F base s pos
          let res := inspectArg F base
          (res.1, hits ++ res.2)
        | .call _ args _ _ => checkArgList F args

/-- The rule-4 walk: ast.Inspect over the argument, reporting each sensitive
selector and recursing with the full per-argument procedure into the
arguments of nested calls, without descending into the call node itself. -/
def inspectArg (F : Facts) (e : Expr) : Facts × List Finding :=
  match e with
  | .ident _ _ _ _ _ => (F, [])
  | .basic _ _ => (F, [])
  | .paren inner _ _ => inspectArg F inner
  | .selector base s _ _ pos =>
    let hits := checkFieldAccessWithCollector F base s pos
    let res := inspectArg F base
    (res.1, hits ++ res.2)
  | .call _ args _ _ => checkArgList F args

/-- The per-argument recursion over the arguments of a nested call. -/
def checkArgList (F : Facts) : List Expr → Facts × List Finding
  | [] => (F, [])
  | a :: as2 =>
    let ra := CheckArgForSensitiveData F a
    let rb := checkArgList ra.1 as2
    (rb.1, ra.2 ++ rb.2)
end

/-! ## Phase 2 (DataFlowCollector.Analyze) and the full per-package pipeline -/

/-- Phase 2: for every collected sink call, in order, check every argument. -/
def analyzePhase2 (F : Facts) (logCalls : List Expr) : Facts × List Finding :=
  logCalls.foldl
    (fun acc c =>
      match c with
      | .call _ args _ _ =>
        let (F2, fs) := checkArgList acc.1 args
        (F2, acc.2 ++ fs)
      | _ => acc)
    (F, [])

/-- The whole per-package analysis: Phase-1 collection in file order, the
fixed-point expansion with the given per-round map iteration orders, then
Phase-2 detection over the collected sink calls. -/
def analyzePackage (cat : List sensitiveField) (cfg : Option Config)
    (pkg : String) (env : TypeEnv) (prog : Registry)
    (orders : List (List (Symbol × FuncDecl))) : List Finding :=
  let (st0, logCalls) := collectProgram cat cfg prog
  let stF := AnalyzeDataFlow cat pkg prog orders st0
  let F : Facts :=
    { fields := cat, vars := stF.vars, funcs := stF.funcs,
      params := stF.params, reg := prog, env := env }
  (analyzePhase2 F logCalls).2

/-! ## SARIF serialization (reporter/sarif) -/

/-- ToSARIFRuleID from reporter/sarif/types.go. -/
def ToSARIFRuleID (detectorRuleID : String) : String :=
  if detectorRuleID = "sensitive-var" then "LH0001"
  else if detectorRuleID = "sensitive-call" then "LH0002"
  else if detectorRuleID = "sensitive-struct" then "LH0003"
  else if detectorRuleID = "sensitive-field" then "LH0004"
  else detectorRuleID

/-- A SARIF result as buildResult fills it (location fields flattened). -/
structure SarifResult where
  ruleID : String
  messageText : String
  level : String
  uri : String
  startLine : Nat
  startColumn : Nat
deriving DecidableEq

/-- AggregatingReporter.buildResult from reporter/sarif/aggregator.go: the
position lookup and path relativization are passed in resolved form. -/
def buildResult (relPath : String) (line column : Nat) (f : Finding) : SarifResult :=
  { ruleID := f.ruleID
    messageText := f.message
    level := "error"
    uri := relPath
    startLine := line
    startColumn := column }

/-! ## The chain shape used to state the depth-bounded propagation claim -/

/-- One propagation link: somewhere in the registry a function g contains a
call to a same-package registry function whose argument at position j is an
identifier using variable v, where the parameter groups before j each bind at
least one name and the group at j binds a name whose definition is the
variable w. -/
def ChainLink (pkg : String) (reg : Registry) (v w : Symbol) : Prop :=
  ∃ g gdecl, (g, gdecl) ∈ reg ∧
  ∃ fn args cty cpos, Expr.call fn args cty cpos ∈ callsInBody gdecl.body ∧
  ∃ callee, getFunctionObject fn = some callee ∧ callee.pkg = some pkg ∧
  ∃ cdecl, lookupReg reg callee = some cdecl ∧
  ∃ j argName argDefs argTy argPos,
    args.get? j = some (Expr.ident argName (some v) argDefs argTy argPos) ∧
    v.kind = SymKind.var ∧
    (∀ k, k < j → ∃ grp, cdecl.params.get? k = some grp ∧ grp.names.length > 0) ∧
    ∃ grpj pname, cdecl.params.get? j = some grpj ∧ pname ∈ grpj.names ∧
      pname.defSym = some w ∧ w.kind = SymKind.var

/-- A chain of propagation links starting at v. -/
def Chain (pkg : String) (reg : Registry) : Symbol → List Symbol → Prop
  | _, [] => True
  | v, w :: rest => ChainLink pkg reg v w ∧ Chain pkg reg w rest

/-! ## Concrete programs used by counterexamples and witnesses -/

/-- The named type of the running example. -/
def userTy : GoType := .named "User" (some "main")

/-- Local variable x of the example main function. -/
def xSym : Symbol := ⟨1, "x", .var, some "main", none⟩

/-- Local variable u of the example main function. -/
def uSym : Symbol := ⟨2, "u", .var, some "main", none⟩

/-- Parameter symbol of the i-th chain function. -/
def pSym (i : Nat) : Symbol := ⟨10 + i, "p" ++ toString i, .var, some "main", none⟩

/-- Symbol of the i-th chain function. -/
def fSym (i : Nat) : Symbol := ⟨20 + i, "f" ++ toString i, .func, some "main", none⟩

/-- Symbol of the example main function. -/
def mainSym : Symbol := ⟨30, "main", .func, some "main", none⟩

/-- The resolved symbol of the package function slog.Info. -/
def slogInfoSym : Symbol := ⟨40, "Info", .func, some "log/slog", none⟩

/-- Catalog of the running example: User.Password is tagged sensitive. -/
def cexCat : List sensitiveField := [⟨"User", "Password"⟩]

/-- The expression u, of type User. -/
def uIdent : Expr := .ident "u" (some uSym) none (some userTy) 100

/-- The defining occurrence of x. -/
def xDef : Expr := .ident "x" none (some xSym) (some .basic) 101

/-- The expression u.Password. -/
def passwordSel : Expr := .selector uIdent "Password" none (some .basic) 102

/-- The statement x := u.Password. -/
def mainAssign : AssignStmt := ⟨[xDef], [passwordSel]⟩

/-- A using occurrence of x. -/
def xUse : Expr := .ident "x" (some xSym) none (some .basic) 103

/-- The call f1(x). -/
def callF1 : Expr :=
  .call (.ident "f1" (some (fSym 1)) none none 104) [xUse] none 105

/-- Declaration of main: x := u.Password; f1(x). -/
def mainDecl : FuncDecl := ⟨[], some [.assignS mainAssign, .exprS callF1]⟩

/-- A using occurrence of the i-th chain parameter. -/
def pUse (i : Nat) : Expr :=
  .ident ("p" ++ toString i) (some (pSym i)) none (some .basic) (200 + i)

/-- The declared name of the i-th chain parameter. -/
def pDefName (i : Nat) : ParamName := ⟨"p" ++ toString i, some (pSym i)⟩

/-- The call f(i+1)(p i) inside the i-th chain function. -/
def callNext (i : Nat) : Expr :=
  .call (.ident ("f" ++ toString (i + 1)) (some (fSym (i + 1))) none none (300 + i))
    [pUse i] none (310 + i)

/-- Declaration of the i-th chain function for i < 6. -/
def fDecl (i : Nat) : FuncDecl := ⟨[⟨[pDefName i]⟩], some [.exprS (callNext i)]⟩

/-- The callee expression slog.Info. -/
def slogSel : Expr :=
  .selector (.ident "slog" none none none 400) "Info" (some slogInfoSym) none 401

/-- The sink call slog.Info("m", p6) inside f6. -/
def logCallF6 : Expr := .call slogSel [.basic none 402, pUse 6] none 403

/-- Declaration of f6, the deepest chain function, which logs its parameter. -/
def f6Decl : FuncDecl := ⟨[⟨[pDefName 6]⟩], some [.exprS logCallF6]⟩

/-- The example package: a sensitive assignment flowing through a call chain
of depth six into a sink inside f6. -/
def cexProg : Registry :=
  [(mainSym, mainDecl), (fSym 1, fDecl 1), (fSym 2, fDecl 2), (fSym 3, fDecl 3),
   (fSym 4, fDecl 4), (fSym 5, fDecl 5), (fSym 6, f6Decl)]

/-- Five rounds iterating the registry in declaration order. -/
def ordersFwd : List (List (Symbol × FuncDecl)) := List.replicate 5 cexProg

/-- Five rounds iterating the registry in reverse declaration order. -/
def ordersRev : List (List (Symbol × FuncDecl)) := List.replicate 5 cexProg.reverse

/-- A call whose callee is written as a plain identifier (for instance under a
dot-import) but resolves to the package function slog.Info. -/
def identCalleeCall : Expr :=
  .call (.ident "Info" (some slogInfoSym) none none 10) [.basic none 11] none 9

/-- Two named struct types embedding each other through pointers; legal Go. -/
def cycEnv : TypeEnv :=
  [(("A", some "main"), ⟨[⟨"B", "", true, .pointer (.named "B" (some "main"))⟩]⟩),
   (("B", some "main"), ⟨[⟨"A", "", true, .pointer (.named "A" (some "main"))⟩]⟩)]

/-- The built-in sink set of the specification, as a predicate on the
resolved callee symbol together with the invoked method name: a function of
the log/slog, log or fmt name sets, or a method of those name sets on
pointer-to-slog.Logger or pointer-to-log.Logger, always owned by a package. -/
def builtinSinkSymbol (obj : Symbol) (funcName : String) : Bool :=
  (obj.kind = SymKind.func && obj.pkg.isSome) &&
  ((obj.pkg = some "log/slog" && isSlogStyleMethod funcName) ||
   (obj.pkg = some "log" && isLogStyleMethod funcName) ||
   (obj.pkg = some "fmt" && isFmtStyleMethod funcName) ||
   (match obj.recv with
    | some rt =>
      (isSlogLoggerType rt && obj.pkg = some "log/slog" && isSlogStyleMethod funcName) ||
      (isLogLoggerType rt && obj.pkg = some "log" && isLogStyleMethod funcName)
    | none => false))

/-- A source record used by concrete witnesses. -/
def wSource : SensitiveSource := ⟨"User.Password", 102, ["User.Password"]⟩

/-- Facts with one tainted variable, used by concrete witnesses. -/
def wFacts : Facts := ⟨cexCat, [(pSym 6, wSource)], [], [], [], []⟩

/-- A base expression whose static type is the foreign type otherpkg.User. -/
def foreignBase : Expr := .basic (some (.named "User" (some "otherpkg"))) 500

/-- Growth order on symbol maps: keys are preserved forward, length does not
shrink, and an unchanged length means no key was added. -/
def Grows (m m2 : SymMap) : Prop :=
  (∀ k, (lookupA m k).isSome → (lookupA m2 k).isSome) ∧
  m.length ≤ m2.length ∧
  (m2.length = m.length → ∀ k, (lookupA m2 k).isSome → (lookupA m k).isSome)

/-- Growth order on taint states as the fixed-point expansion transforms
them: sensitiveVars grows and sensitiveFuncs is untouched. -/
def FlowGrows (st st2 : TaintState) : Prop :=
  Grows st.vars st2.vars ∧ st2.funcs = st.funcs

/-! # Lemmas about the map model -/

theorem lookupA_insertA_self (m : SymMap) (k : Symbol) (v : SensitiveSource) :
    lookupA (insertA m k v) k = some v := by
  induction m with
  | nil => simp [insertA, lookupA]
  | cons h t ih =>
    obtain ⟨k2, v2⟩ := h
    by_cases hk : k2 = k
    · subst hk
      simp [insertA, lookupA]
    · simp [insertA, lookupA, hk, ih]

theorem lookupA_insertA_ne (m : SymMap) (k k2 : Symbol) (v : SensitiveSource)
    (h : k ≠ k2) : lookupA (insertA m k v) k2 = lookupA m k2 := by
  induction m with
  | nil => simp [insertA, lookupA, h]
  | cons hd t ih =>
    obtain ⟨k3, v3⟩ := hd
    by_cases hk : k3 = k
    · subst hk
      simp [insertA, lookupA, h]
    · simp [insertA, lookupA, hk, ih]

theorem isSome_lookupA_insertA (m : SymMap) (k k2 : Symbol) (v : SensitiveSource)
    (h : (lookupA m k2).isSome) : (lookupA (insertA m k v) k2).isSome := by
  by_cases hk : k = k2
  · subst hk
    simp [lookupA_insertA_self]
  · rw [lookupA_insertA_ne m k k2 v hk]
    exact h

theorem length_insertA_ge (m : SymMap) (k : Symbol) (v : SensitiveSource) :
    m.length ≤ (insertA m k v).length := by
  induction m with
  | nil => simp [insertA]
  | cons hd t ih =>
    obtain ⟨k3, v3⟩ := hd
    by_cases hk : k3 = k
    · simp [insertA, hk]
    · simpa [insertA, hk] using ih

theorem length_insertA_of_mem (m : SymMap) (k : Symbol) (v : SensitiveSource)
    (h : (lookupA m k).isSome) : (insertA m k v).length = m.length := by
  induction m with
  | nil => simp [lookupA] at h
  | cons hd t ih =>
    obtain ⟨k3, v3⟩ := hd
    by_cases hk : k3 = k
    · simp [insertA, hk]
    · rw [lookupA, if_neg hk] at h
      simp [insertA, hk, ih h]

theorem length_insertA_of_not_mem (m : SymMap) (k : Symbol) (v : SensitiveSource)
    (h : ¬ (lookupA m k).isSome) : (insertA m k v).length = m.length + 1 := by
  induction m with
  | nil => simp [insertA]
  | cons hd t ih =>
    obtain ⟨k3, v3⟩ := hd
    by_cases hk : k3 = k
    · rw [lookupA, if_pos hk] at h
      simp at h
    · rw [lookupA, if_neg hk] at h
      simp [insertA, hk, ih h]

theorem mem_of_insertA_length_eq (m : SymMap) (k : Symbol) (v : SensitiveSource)
    (h : (insertA m k v).length = m.length) : (lookupA m k).isSome := by
  by_contra hno
  rw [length_insertA_of_not_mem m k v hno] at h
  omega

theorem grows_refl (m : SymMap) : Grows m m :=
  ⟨fun _ h => h, le_refl _, fun _ _ h => h⟩

theorem grows_trans {m1 m2 m3 : SymMap} (h1 : Grows m1 m2) (h2 : Grows m2 m3) :
    Grows m1 m3 := by
  obtain ⟨f1, l1, b1⟩ := h1
  obtain ⟨f2, l2, b2⟩ := h2
  refine ⟨fun k h => f2 k (f1 k h), le_trans l1 l2, fun hlen k h => ?_⟩
  have e2 : m2.length = m1.length := by omega
  have e3 : m3.length = m2.length := by omega
  exact b1 e2 k (b2 e3 k h)

theorem grows_insertA (m : SymMap) (k : Symbol) (v : SensitiveSource) :
    Grows m (insertA m k v) := by
  refine ⟨fun k2 h => isSome_lookupA_insertA m k k2 v h, length_insertA_ge m k v,
    fun hlen k2 h => ?_⟩
  have hk : (lookupA m k).isSome := mem_of_insertA_length_eq m k v hlen
  by_cases he : k = k2
  · subst he
    exact hk
  · rw [lookupA_insertA_ne m k k2 v he] at h
    exact h

theorem flowGrows_refl (st : TaintState) : FlowGrows st st :=
  ⟨grows_refl _, rfl⟩

theorem flowGrows_trans {s1 s2 s3 : TaintState} (h1 : FlowGrows s1 s2)
    (h2 : FlowGrows s2 s3) : FlowGrows s1 s3 :=
  ⟨grows_trans h1.1 h2.1, h2.2.trans h1.2⟩

/-! # Claim C8: SARIF rule identifiers (code bug) -/

/-- Claim C8: a SARIF result built by the aggregating reporter is supposed to
carry the mapped identifier LH0001 for a sensitive-var finding, as
ToSARIFRuleID and the package tests state; buildResult instead copies the
detector rule identifier unmapped into the result. -/
theorem sarif_buildResult_ruleID_unmapped :
    (buildResult "test.go" 1 1 ⟨1, "test finding", "sensitive-var"⟩).ruleID
      = "sensitive-var" ∧
    ToSARIFRuleID "sensitive-var" = "LH0001" ∧
    (buildResult "test.go" 1 1 ⟨1, "test finding", "sensitive-var"⟩).ruleID
      ≠ ToSARIFRuleID "sensitive-var" := by
  refine ⟨rfl, by decide, by decide⟩

/-! # Claim C4: sink classification of built-in callees (corrected) -/

/-- Claim C4, counterexample: a call whose resolved callee is the built-in
sink slog.Info, but whose callee expression is a plain identifier rather than
a selector (as under a dot-import or through a function value), is not
classified as a log call. -/
theorem builtin_sink_ident_callee_not_classified :
    resolvedCallee identCalleeCall = some slogInfoSym ∧
    builtinSinkSymbol slogInfoSym "Info" = true ∧
    IsLogCall none identCalleeCall = false := by
  refine ⟨rfl, by decide, by decide⟩

/-! # Claim C5: termination of the sensitivity walks (code bug) -/

theorem cyc_field_walk_fuel (fuel : Nat) :
    checkSensitiveFieldFromTypeInfo fuel cycEnv "A" (some "main") "X" = none ∧
    checkSensitiveFieldFromTypeInfo fuel cycEnv "B" (some "main") "X" = none := by
  induction fuel with
  | zero => exact ⟨by simp [checkSensitiveFieldFromTypeInfo],
      by simp [checkSensitiveFieldFromTypeInfo]⟩
  | succ n ih =>
    obtain ⟨ihA, ihB⟩ := ih
    simp only [cycEnv] at ihA ihB
    constructor
    · rw [checkSensitiveFieldFromTypeInfo]
      simp [cycEnv, lookupEnv, checkFieldLoop, HasSensitiveTag, containsSeq,
        startsWithSeq, asNamed, derefOnce, ihB]
    · rw [checkSensitiveFieldFromTypeInfo]
      simp [cycEnv, lookupEnv, checkFieldLoop, HasSensitiveTag, containsSeq,
        startsWithSeq, asNamed, derefOnce, ihA]

/-- Claim C5: the embedded-field sensitivity lookup
checkSensitiveFieldFromTypeInfo has no visited set, so on two struct types
that embed each other through pointers the recursion never returns, for any
call-stack depth: the claimed visited-set bound does not exist for this walk.
The struct-sensitivity walk does carry a visited set; the field walk is the
divergent one. -/
theorem cyclic_embedding_field_walk_diverges (fuel : Nat) :
    checkSensitiveFieldFromTypeInfo fuel cycEnv "A" (some "main") "X" = none :=
  (cyc_field_walk_fuel fuel).1

theorem builtinSinkSymbol_cases (obj : Symbol) (m : String)
    (h : builtinSinkSymbol obj m = true) :
    obj.kind = SymKind.func ∧
    ((obj.pkg = some "log/slog" ∧ isSlogStyleMethod m = true) ∨
     (obj.pkg = some "log" ∧ isLogStyleMethod m = true) ∨
     (obj.pkg = some "fmt" ∧ isFmtStyleMethod m = true)) := by
  rw [builtinSinkSymbol] at h
  cases hr : obj.recv with
  | none =>
    rw [hr] at h
    simp at h
    tauto
  | some rt =>
    rw [hr] at h
    simp at h
    tauto

theorem IsLogCall_of_builtin_selector (cfg : Option Config) (base : Expr)
    (m : String) (obj : Symbol) (sty : Option GoType) (spos : Nat)
    (args : List Expr) (cty : Option GoType) (cpos : Nat)
    (h : builtinSinkSymbol obj m = true) :
    IsLogCall cfg (.call (.selector base m (some obj) sty spos) args cty cpos)
      = true := by
  obtain ⟨hkind, hcases⟩ := builtinSinkSymbol_cases obj m h
  rw [IsLogCall]
  rw [if_neg (by simp [hkind])]
  rcases hcases with ⟨hp, hm⟩ | ⟨hp, hm⟩ | ⟨hp, hm⟩
  · rw [hp]
    simp [hm]
  · rw [hp]
    simp [hm]
  · rw [hp]
    simp [hm]

theorem collectStmt_logs (cat : List sensitiveField) (cfg : Option Config)
    (cur : Option Symbol) (acc : TaintState × List Expr) (s : Stmt) :
    (collectStmt cat cfg cur acc s).2
      = acc.2 ++ (callsInStmt s).filter (IsLogCall cfg) := by
  cases s with
  | assignS a => simp [collectStmt, callsInStmt]
  | retS rs => simp [collectStmt, callsInStmt]
  | exprS e => simp [collectStmt, callsInStmt, logCallsInExpr]

theorem collectStmts_logs (cat : List sensitiveField) (cfg : Option Config)
    (cur : Option Symbol) (stmts : List Stmt) (acc : TaintState × List Expr) :
    (stmts.foldl (collectStmt cat cfg cur) acc).2
      = acc.2 ++ (stmts.flatMap callsInStmt).filter (IsLogCall cfg) := by
  induction stmts generalizing acc with
  | nil => simp
  | cons s rest ih =>
    rw [List.foldl_cons, ih, collectStmt_logs]
    simp [List.filter_append]

/-- Claim C4 as amended: every call expression, however deeply nested inside
a function body, whose callee expression is a selector resolving to a symbol
of the built-in sink set, is appended to the collected log calls of the
Phase-1 walk, under any configuration. -/
theorem builtin_selector_sink_collected (cat : List sensitiveField)
    (cfg : Option Config) (acc : TaintState × List Expr) (funcObj : Symbol)
    (decl : FuncDecl) (c : Expr) (hmem : c ∈ callsInBody decl.body)
    (hshape : ∃ base m obj sty spos args cty cpos,
      c = .call (.selector base m (some obj) sty spos) args cty cpos ∧
      builtinSinkSymbol obj m = true) :
    c ∈ (collectFromFunction cat cfg acc funcObj decl).2 := by
  obtain ⟨base, m, obj, sty, spos, args, cty, cpos, hc, hb⟩ := hshape
  have hlog : IsLogCall cfg c = true := by
    rw [hc]
    exact IsLogCall_of_builtin_selector cfg base m obj sty spos args cty cpos hb
  cases hbody : decl.body with
  | none =>
    rw [hbody] at hmem
    simp [callsInBody] at hmem
  | some stmts =>
    rw [hbody] at hmem
    simp only [callsInBody] at hmem
    simp only [collectFromFunction, hbody, collectStmts_logs]
    refine List.mem_append_right _ ?_
    exact List.mem_filter.mpr ⟨hmem, hlog⟩

/-- Concrete application of the amended claim C4: the sink call nested in the
body of f6 is collected. -/
theorem builtin_selector_sink_collected_witness :
    logCallF6 ∈ (collectFromFunction cexCat none (⟨[], [], []⟩, []) (fSym 6) f6Decl).2 := by
  refine builtin_selector_sink_collected cexCat none _ (fSym 6) f6Decl logCallF6 ?_ ?_
  · simp [callsInBody, f6Decl, callsInStmt, callsInExpr, logCallF6]
  · exact ⟨.ident "slog" none none none 400, "Info", slogInfoSym, none, 401,
      [.basic none 402, pUse 6], none, 403, rfl, by decide⟩

end Leakhound

namespace Leakhound

theorem CheckArg_eq (F : Facts) (e : Expr) :
    CheckArgForSensitiveData F e =
      (match rule1Var F e with
       | some f => (F, [f])
       | none =>
         match rule2Call F e with
         | some f => (F, [f])
         | none =>
           match rule3Struct F e with
           | some f => (F, [f])
           | none => inspectArg F e) := by
  cases e <;> rfl

mutual
theorem inspect_preserves_facts (F : Facts) (e : Expr) :
    (inspectArg F e).1 = F := by
  cases e with
  | ident name uses defs ty pos => rfl
  | basic ty pos => rfl
  | paren inner ty pos => simpa [inspectArg] using inspect_preserves_facts F inner
  | selector base s su ty pos =>
    simpa [inspectArg] using inspect_preserves_facts F base
  | call fn args ty pos => simpa [inspectArg] using checkArgList_preserves_facts F args

theorem checkArgList_preserves_facts (F : Facts) (l : List Expr) :
    (checkArgList F l).1 = F := by
  match l with
  | [] => rfl
  | a :: as2 =>
    have ha : (CheckArgForSensitiveData F a).1 = F := by
      rw [CheckArg_eq]
      cases h1 : rule1Var F a with
      | some f => rfl
      | none =>
        cases h2 : rule2Call F a with
        | some f => rfl
        | none =>
          cases h3 : rule3Struct F a with
          | some f => rfl
          | none => exact inspect_preserves_facts F a
    have h2 := checkArgList_preserves_facts (CheckArgForSensitiveData F a).1 as2
    simp only [checkArgList]
    rw [h2, ha]
end

theorem checkArg_preserves_facts (F : Facts) (e : Expr) :
    (CheckArgForSensitiveData F e).1 = F := by
  rw [CheckArg_eq]
  cases h1 : rule1Var F e with
  | some f => rfl
  | none =>
    cases h2 : rule2Call F e with
    | some f => rfl
    | none =>
      cases h3 : rule3Struct F e with
      | some f => rfl
      | none => exact inspect_preserves_facts F e

/-- Claim C10: the per-argument detection is read-only on the collected
facts: it returns the catalog, taint maps, registry and type environment
unchanged, and therefore repeating it over the same facts reproduces the same
findings. -/
theorem CheckArg_readonly_facts (F : Facts) (e : Expr) :
    (CheckArgForSensitiveData F e).1 = F ∧
    (CheckArgForSensitiveData (CheckArgForSensitiveData F e).1 e).2
      = (CheckArgForSensitiveData F e).2 := by
  have h := checkArg_preserves_facts F e
  exact ⟨h, by rw [h]⟩

theorem rule1Var_ruleID (F : Facts) (e : Expr) (f : Finding)
    (h : rule1Var F e = some f) : f.ruleID = "sensitive-var" := by
  unfold rule1Var at h
  repeat' split at h
  all_goals first
    | (injection h with h2; subst h2; rfl)
    | injection h

theorem rule2Call_ruleID (F : Facts) (e : Expr) (f : Finding)
    (h : rule2Call F e = some f) : f.ruleID = "sensitive-call" := by
  unfold rule2Call at h
  repeat' split at h
  all_goals first
    | (injection h with h2; subst h2; rfl)
    | injection h

theorem rule3Struct_ruleID (F : Facts) (e : Expr) (f : Finding)
    (h : rule3Struct F e = some f) : f.ruleID = "sensitive-struct" := by
  unfold rule3Struct at h
  repeat' split at h
  all_goals first
    | (injection h with h2; subst h2; rfl)
    | injection h

theorem checkFieldAccess_length (F : Facts) (base : Expr) (s : String) (pos : Nat) :
    (checkFieldAccessWithCollector F base s pos).length ≤ 1 := by
  rw [checkFieldAccessWithCollector]
  repeat' split
  all_goals simp

/-- Claim C1: the per-argument decision is first-match-wins.  A tainted bare
identifier yields exactly one sensitive-var finding and stops; otherwise a
tainted call yields exactly one sensitive-call finding and stops; otherwise a
sensitive named struct type yields exactly one sensitive-struct finding and
stops; otherwise the argument is walked top-down, a selector contributing its
at-most-one field finding followed by the walk of its base, and a nested call
contributing exactly the full per-argument procedure applied to its
arguments, without re-entering the call node. -/
theorem CheckArg_first_match_wins (F : Facts) (e : Expr) :
    (∀ f, rule1Var F e = some f →
      CheckArgForSensitiveData F e = (F, [f]) ∧ f.ruleID = "sensitive-var") ∧
    (rule1Var F e = none → ∀ f, rule2Call F e = some f →
      CheckArgForSensitiveData F e = (F, [f]) ∧ f.ruleID = "sensitive-call") ∧
    (rule1Var F e = none → rule2Call F e = none → ∀ f, rule3Struct F e = some f →
      CheckArgForSensitiveData F e = (F, [f]) ∧ f.ruleID = "sensitive-struct") ∧
    (rule1Var F e = none → rule2Call F e = none → rule3Struct F e = none →
      CheckArgForSensitiveData F e = inspectArg F e) ∧
    (∀ base s su ty pos, rule1Var F e = none → rule2Call F e = none →
      rule3Struct F e = none → e = .selector base s su ty pos →
      (CheckArgForSensitiveData F e).2
        = checkFieldAccessWithCollector F base s pos ++ (inspectArg F base).2) ∧
    (∀ fn args ty pos, rule1Var F e = none → rule2Call F e = none →
      rule3Struct F e = none → e = .call fn args ty pos →
      (CheckArgForSensitiveData F e).2 = (checkArgList F args).2) ∧
    (∀ base s pos, (checkFieldAccessWithCollector F base s pos).length ≤ 1) := by
  refine ⟨?_, ?_, ?_, ?_, ?_, ?_, ?_⟩
  · intro f h1
    refine ⟨?_, rule1Var_ruleID F e f h1⟩
    rw [CheckArg_eq, h1]
  · intro h1 f h2
    refine ⟨?_, rule2Call_ruleID F e f h2⟩
    rw [CheckArg_eq, h1, h2]
  · intro h1 h2 f h3
    refine ⟨?_, rule3Struct_ruleID F e f h3⟩
    rw [CheckArg_eq, h1, h2, h3]
  · intro h1 h2 h3
    rw [CheckArg_eq, h1, h2, h3]
  · intro base s su ty pos h1 h2 h3 he
    subst he
    rw [CheckArg_eq, h1, h2, h3]
    rfl
  · intro fn args ty pos h1 h2 h3 he
    subst he
    rw [CheckArg_eq, h1, h2, h3]
    rfl
  · intro base s pos
    exact checkFieldAccess_length F base s pos

end Leakhound

namespace Leakhound

theorem checkSensitiveExpr_mono (cat : List sensitiveField)
    {st st2 : TaintState} (h : FlowGrows st st2) (r : Expr)
    (hs : (checkSensitiveExpr cat st r).isSome) :
    (checkSensitiveExpr cat st2 r).isSome := by
  cases r with
  | selector base f su ty pos => simpa [checkSensitiveExpr] using hs
  | ident name uses defs ty pos =>
    cases uses with
    | none => simp [checkSensitiveExpr] at hs
    | some u =>
      by_cases hk : u.kind = SymKind.var
      · rw [checkSensitiveExpr] at hs ⊢
        rw [if_pos hk] at hs ⊢
        exact h.1.1 u hs
      · rw [checkSensitiveExpr, if_neg hk] at hs
        simp at hs
  | call fn args ty pos =>
    cases hg : getFunctionObject fn with
    | none => rw [checkSensitiveExpr, hg] at hs; simp at hs
    | some g =>
      rw [checkSensitiveExpr, hg] at hs
      rw [checkSensitiveExpr, hg, h.2]
      exact hs
  | paren inner ty pos => simp [checkSensitiveExpr] at hs
  | basic ty pos => simp [checkSensitiveExpr] at hs

theorem flowGrows_collectAssignPairs (cat : List sensitiveField)
    (ls rs : List Expr) (st : TaintState) :
    FlowGrows st (collectAssignPairs cat st ls rs) := by
  induction ls generalizing rs st with
  | nil => exact flowGrows_refl st
  | cons l ls2 ih =>
    cases rs with
    | nil => exact flowGrows_refl st
    | cons r rs2 =>
      rw [collectAssignPairs]
      refine flowGrows_trans ?_ (ih rs2 _)
      cases defVarOf l with
      | none => exact flowGrows_refl st
      | some v =>
        simp only []
        cases checkSensitiveExpr cat st r with
        | none => exact flowGrows_refl st
        | some src => exact ⟨grows_insertA st.vars v src, rfl⟩

theorem collectAssignPairs_taints (cat : List sensitiveField) :
    ∀ (ls rs : List Expr) (i : Nat) (st : TaintState) (l r : Expr) (v : Symbol),
    ls.get? i = some l → rs.get? i = some r → defVarOf l = some v →
    (checkSensitiveExpr cat st r).isSome →
    (lookupA (collectAssignPairs cat st ls rs).vars v).isSome := by
  intro ls
  induction ls with
  | nil => intro rs i st l r v hl; simp at hl
  | cons l0 ls2 ih =>
    intro rs i st l r v hl hr hd hs
    cases rs with
    | nil => simp at hr
    | cons r0 rs2 =>
      cases i with
      | zero =>
        rw [List.get?_cons_zero] at hl hr
        injection hl with hl2
        injection hr with hr2
        subst hl2
        subst hr2
        rw [collectAssignPairs, hd]
        obtain ⟨src, hsrc⟩ := Option.isSome_iff_exists.mp hs
        rw [hsrc]
        have hmem : (lookupA (insertA st.vars v src) v).isSome := by
          rw [lookupA_insertA_self]
          rfl
        exact (flowGrows_collectAssignPairs cat ls2 rs2 _).1.1 v hmem
      | succ i2 =>
        rw [List.get?_cons_succ] at hl hr
        rw [collectAssignPairs]
        have hstep : FlowGrows st
            (match defVarOf l0 with
             | none => st
             | some v0 =>
               match checkSensitiveExpr cat st r0 with
               | none => st
               | some src => { st with vars := insertA st.vars v0 src }) := by
          cases defVarOf l0 with
          | none => exact flowGrows_refl st
          | some v0 =>
            simp only []
            cases checkSensitiveExpr cat st r0 with
            | none => exact flowGrows_refl st
            | some src => exact ⟨grows_insertA st.vars v0 src, rfl⟩
        exact ih rs2 i2 _ l r v hl hr hd (checkSensitiveExpr_mono cat hstep r hs)

theorem collectAssignPairs_noop (cat : List sensitiveField) :
    ∀ (ls rs : List Expr) (st : TaintState),
    (∀ l ∈ ls, defVarOf l = none) → collectAssignPairs cat st ls rs = st := by
  intro ls
  induction ls with
  | nil => intro rs st _; cases rs <;> rfl
  | cons l0 ls2 ih =>
    intro rs st hno
    cases rs with
    | nil => rfl
    | cons r0 rs2 =>
      rw [collectAssignPairs, hno l0 (List.mem_cons_self l0 ls2)]
      exact ih rs2 st (fun l hl => hno l (List.mem_cons_of_mem l0 hl))

theorem collectAssignPairs_keys (cat : List sensitiveField) :
    ∀ (ls rs : List Expr) (st : TaintState) (v : Symbol),
    (lookupA (collectAssignPairs cat st ls rs).vars v).isSome →
    (lookupA st.vars v).isSome ∨ ∃ i l, ls.get? i = some l ∧ defVarOf l = some v := by
  intro ls
  induction ls with
  | nil => intro rs st v h; cases rs <;> exact Or.inl h
  | cons l0 ls2 ih =>
    intro rs st v h
    cases rs with
    | nil => exact Or.inl h
    | cons r0 rs2 =>
      rw [collectAssignPairs] at h
      rcases ih rs2 _ v h with h2 | ⟨i, l, hl, hd⟩
      · cases hd0 : defVarOf l0 with
        | none =>
          rw [hd0] at h2
          exact Or.inl h2
        | some v0 =>
          rw [hd0] at h2
          cases hc : checkSensitiveExpr cat st r0 with
          | none =>
            rw [hc] at h2
            exact Or.inl h2
          | some src =>
            rw [hc] at h2
            simp only [] at h2
            by_cases hv : v0 = v
            · subst hv
              exact Or.inr ⟨0, l0, rfl, hd0⟩
            · rw [lookupA_insertA_ne st.vars v0 v src hv] at h2
              exact Or.inl h2
      · exact Or.inr ⟨i + 1, l, by rw [List.get?_cons_succ]; exact hl, hd⟩

/-- Claim C6: an assignment taints its left-hand side exactly when the LHS
identifier is a fresh definition: a pair whose LHS resolves through Defs to a
variable and whose RHS classifies as sensitive adds that variable to
sensitiveVars; an assignment none of whose LHS expressions resolves through
Defs (in particular a plain re-assignment of an existing variable) leaves the
state untouched; and no symbol beyond the Defs-resolved LHS variables is ever
added. -/
theorem collectAssignment_defs_only (cat : List sensitiveField)
    (st : TaintState) (a : AssignStmt) :
    (∀ i l r v, a.lhs.get? i = some l → a.rhs.get? i = some r →
      defVarOf l = some v → (checkSensitiveExpr cat st r).isSome →
      (lookupA (CollectAssignment cat st a).vars v).isSome) ∧
    ((∀ l ∈ a.lhs, defVarOf l = none) → CollectAssignment cat st a = st) ∧
    (∀ v, (lookupA (CollectAssignment cat st a).vars v).isSome →
      (lookupA st.vars v).isSome ∨
      ∃ i l, a.lhs.get? i = some l ∧ defVarOf l = some v) := by
  refine ⟨?_, ?_, ?_⟩
  · intro i l r v hl hr hd hs
    exact collectAssignPairs_taints cat a.lhs a.rhs i st l r v hl hr hd hs
  · intro hno
    exact collectAssignPairs_noop cat a.lhs a.rhs st hno
  · intro v h
    exact collectAssignPairs_keys cat a.lhs a.rhs st v h

/-- Concrete application of claim C6: in x := u.Password the defined variable
x is tainted, and the same statement with the definition resolution removed
(a plain re-assignment) leaves the state untouched. -/
theorem collectAssignment_defs_only_witness :
    (lookupA (CollectAssignment cexCat ⟨[], [], []⟩ mainAssign).vars xSym).isSome ∧
    CollectAssignment cexCat ⟨[], [], []⟩ ⟨[xUse], [passwordSel]⟩ = ⟨[], [], []⟩ := by
  constructor
  · exact (collectAssignment_defs_only cexCat ⟨[], [], []⟩ mainAssign).1
      0 xDef passwordSel xSym rfl rfl (by decide) (by decide)
  · exact (collectAssignment_defs_only cexCat ⟨[], [], []⟩ ⟨[xUse], [passwordSel]⟩).2.1
      (by intro l hl; simp at hl; subst hl; decide)

end Leakhound

namespace Leakhound

/-- Claim C9: sensitivity lookups identify named types by their short name
only.  A field access whose base type is the named type tn of an arbitrary
declaring package (in particular a foreign one) is reported as a sensitive
field whenever the catalog, which records local declarations only, holds an
entry for the same short name; and the visited set of the embedded-struct
walk also keys by short name only, so a type whose short name was already
visited is dismissed whatever its declaring package. -/
theorem sensitivity_by_short_name (F : Facts) (tn fn2 : String)
    (p : Option String) (bpos pos : Nat) :
    (sensitiveFieldMem F.fields tn fn2 = true →
      checkFieldAccessWithCollector F (.basic (some (.named tn p)) bpos) fn2 pos
        = [⟨pos, fieldMessage tn fn2, "sensitive-field"⟩]) ∧
    (∀ fuel env visited, tn ∈ visited →
      checkStructForSensitiveFields (fuel + 1) env tn p visited
        = some (false, visited)) := by
  constructor
  · intro hmem
    rw [checkFieldAccessWithCollector]
    simp only [typeOfE, asNamed, derefOnce]
    rw [if_pos hmem]
  · intro fuel env visited hv
    rw [checkStructForSensitiveFields]
    cases lookupEnv env tn p with
    | none => rfl
    | some s => simp [hv]

/-- Concrete application of claim C9: a field access on the foreign type
otherpkg.User is reported because the local type main.User declares the
sensitive field Password. -/
theorem sensitivity_by_short_name_witness :
    checkFieldAccessWithCollector wFacts foreignBase "Password" 501
      = [⟨501, fieldMessage "User" "Password", "sensitive-field"⟩] :=
  (sensitivity_by_short_name wFacts "User" "Password" (some "otherpkg") 500 501).1
    (by decide)

end Leakhound

namespace Leakhound

theorem flowGrows_taintGroup (apos : Nat) (src : SensitiveSource) :
    ∀ (names : List ParamName) (st : TaintState),
    FlowGrows st (taintGroup st apos src names) := by
  intro names
  induction names with
  | nil => intro st; exact flowGrows_refl st
  | cons pn rest ih =>
    intro st
    rw [taintGroup]
    refine flowGrows_trans ?_ (ih _)
    cases pn.defSym with
    | none => exact flowGrows_refl st
    | some pobj =>
      by_cases hk : pobj.kind = SymKind.var
      · simp only [hk, if_pos rfl]
        exact ⟨grows_insertA st.vars pobj _, rfl⟩
      · simp only [if_neg hk]
        exact flowGrows_refl st

theorem flowGrows_mapArgs (cat : List sensitiveField) (params : List ParamGroup) :
    ∀ (args : List Expr) (paramIdx : Nat) (st : TaintState),
    FlowGrows st (mapArgsToParams cat params st args paramIdx) := by
  intro args
  induction args with
  | nil => intro paramIdx st; exact flowGrows_refl st
  | cons a as2 ih =>
    intro paramIdx st
    rw [mapArgsToParams]
    cases params.get? paramIdx with
    | none => exact flowGrows_refl st
    | some grp =>
      simp only []
      refine flowGrows_trans ?_ (ih _ _)
      cases checkSensitiveExpr cat st a with
      | none => exact flowGrows_refl st
      | some src => exact flowGrows_taintGroup (posOfE a) src grp.names st

theorem flowGrows_analyzeCall (cat : List sensitiveField) (pkg : String)
    (reg : Registry) (st : TaintState) (c : Expr) :
    FlowGrows st (analyzeCall cat pkg reg st c) := by
  cases c with
  | call fn args cty cpos =>
    rw [analyzeCall]
    cases getFunctionObject fn with
    | none => exact flowGrows_refl st
    | some calledFunc =>
      simp only []
      cases calledFunc.pkg with
      | none => exact flowGrows_refl st
      | some p =>
        by_cases hp : p ≠ pkg
        · simp only [if_pos hp]
          exact flowGrows_refl st
        · simp only [if_neg hp]
          cases lookupReg reg calledFunc with
          | none => exact flowGrows_refl st
          | some calledDecl => exact flowGrows_mapArgs cat calledDecl.params args 0 st
  | ident name uses defs ty pos => exact flowGrows_refl st
  | selector base s su ty pos => exact flowGrows_refl st
  | paren inner ty pos => exact flowGrows_refl st
  | basic ty pos => exact flowGrows_refl st

theorem flowGrows_analyzeCalls (cat : List sensitiveField) (pkg : String)
    (reg : Registry) :
    ∀ (cs : List Expr) (st : TaintState),
    FlowGrows st (analyzeCalls cat pkg reg st cs) := by
  intro cs
  induction cs with
  | nil => intro st; exact flowGrows_refl st
  | cons c rest ih =>
    intro st
    rw [analyzeCalls]
    exact flowGrows_trans (flowGrows_analyzeCall cat pkg reg st c) (ih _)

theorem flowGrows_analyzeFunctionCalls (cat : List sensitiveField) (pkg : String)
    (reg : Registry) (st : TaintState) (visited : List Symbol)
    (funcObj : Symbol) (decl : FuncDecl) :
    FlowGrows st (analyzeFunctionCalls cat pkg reg st visited funcObj decl).1 := by
  rw [analyzeFunctionCalls]
  by_cases hv : funcObj ∈ visited
  · simp only [if_pos hv]
    exact flowGrows_refl st
  · simp only [if_neg hv]
    cases decl.body with
    | none => exact flowGrows_refl st
    | some stmts => exact flowGrows_analyzeCalls cat pkg reg _ st

theorem flowGrows_roundFold (cat : List sensitiveField) (pkg : String)
    (reg : Registry) :
    ∀ (order : List (Symbol × FuncDecl)) (st : TaintState)
      (vis : List Symbol) (ch : Bool),
    FlowGrows st (roundFold cat pkg reg (st, vis, ch) order).1 := by
  intro order
  induction order with
  | nil => intro st vis ch; exact flowGrows_refl st
  | cons e rest ih =>
    intro st vis ch
    obtain ⟨funcObj, decl⟩ := e
    rw [roundFold]
    rcases hA : analyzeFunctionCalls cat pkg reg st vis funcObj decl with ⟨st2, vis2⟩
    have h1 : FlowGrows st st2 := by
      have := flowGrows_analyzeFunctionCalls cat pkg reg st vis funcObj decl
      rw [hA] at this
      exact this
    simp only [hA]
    exact flowGrows_trans h1 (ih _ _ _)

theorem flowGrows_roundRun (cat : List sensitiveField) (pkg : String)
    (reg : Registry) (st : TaintState) (order : List (Symbol × FuncDecl)) :
    FlowGrows st (roundRun cat pkg reg st order).1 := by
  rw [roundRun]
  exact flowGrows_roundFold cat pkg reg order st [] false

theorem flowGrows_runRounds (cat : List sensitiveField) (pkg : String)
    (reg : Registry) :
    ∀ (orders : List (List (Symbol × FuncDecl))) (st : TaintState),
    FlowGrows st (runRounds cat pkg reg orders st) := by
  intro orders
  induction orders with
  | nil => intro st; exact flowGrows_refl st
  | cons o os ih =>
    intro st
    rw [runRounds]
    rcases hR : roundRun cat pkg reg st o with ⟨st2, ch⟩
    have h1 : FlowGrows st st2 := by
      have := flowGrows_roundRun cat pkg reg st o
      rw [hR] at this
      exact this
    cases ch with
    | true => exact flowGrows_trans h1 (ih st2)
    | false => exact h1

/-- Claim C3: the set of tainted variable symbols grows monotonically: a
symbol present in sensitiveVars before a round of the fixed-point expansion
is still present after it, and likewise across the whole sequence of rounds,
so sensitiveVars never shrinks between consecutive rounds. -/
theorem taintedVars_monotone (cat : List sensitiveField) (pkg : String)
    (reg : Registry) (st : TaintState) (order : List (Symbol × FuncDecl))
    (orders : List (List (Symbol × FuncDecl))) (v : Symbol) :
    ((lookupA st.vars v).isSome →
      (lookupA (roundRun cat pkg reg st order).1.vars v).isSome) ∧
    ((lookupA st.vars v).isSome →
      (lookupA (runRounds cat pkg reg orders st).vars v).isSome) :=
  ⟨fun h => (flowGrows_roundRun cat pkg reg st order).1.1 v h,
   fun h => (flowGrows_runRounds cat pkg reg orders st).1.1 v h⟩

/-- Concrete application of claim C3: the seeded variable x survives one
round and the whole fixed-point run on the example package. -/
theorem taintedVars_monotone_witness :
    (lookupA (roundRun cexCat "main" cexProg ⟨[(xSym, wSource)], [], []⟩
      cexProg).1.vars xSym).isSome ∧
    (lookupA (runRounds cexCat "main" cexProg ordersFwd
      ⟨[(xSym, wSource)], [], []⟩).vars xSym).isSome :=
  ⟨(taintedVars_monotone cexCat "main" cexProg ⟨[(xSym, wSource)], [], []⟩
      cexProg ordersFwd xSym).1 (by decide),
   (taintedVars_monotone cexCat "main" cexProg ⟨[(xSym, wSource)], [], []⟩
      cexProg ordersFwd xSym).2 (by decide)⟩

end Leakhound

namespace Leakhound

theorem roundRun_eq (cat : List sensitiveField) (pkg : String) (reg : Registry)
    (st : TaintState) (o : List (Symbol × FuncDecl)) :
    roundRun cat pkg reg st o
      = ((roundFold cat pkg reg (st, [], false) o).1,
         (roundFold cat pkg reg (st, [], false) o).2.2) := by
  rw [roundRun]

theorem runRounds_cons (cat : List sensitiveField) (pkg : String) (reg : Registry)
    (o : List (Symbol × FuncDecl)) (os : List (List (Symbol × FuncDecl)))
    (st : TaintState) :
    runRounds cat pkg reg (o :: os) st
      = (if (roundRun cat pkg reg st o).2
         then runRounds cat pkg reg os (roundRun cat pkg reg st o).1
         else (roundRun cat pkg reg st o).1) := by
  rw [runRounds]

theorem decide_growth_or (a b c : Nat) (h1 : a ≤ b) (h2 : b ≤ c) :
    (decide (b > a) || decide (c > b)) = decide (c > a) := by
  by_cases hab : b > a
  · have hac : c > a := by omega
    simp [hab, hac]
  · have heq : b = a := by omega
    subst heq
    simp

theorem roundFold_changed (cat : List sensitiveField) (pkg : String)
    (reg : Registry) :
    ∀ (order : List (Symbol × FuncDecl)) (st : TaintState)
      (vis : List Symbol) (ch : Bool),
    (roundFold cat pkg reg (st, vis, ch) order).2.2
      = (ch || decide ((roundFold cat pkg reg (st, vis, ch) order).1.vars.length
                        > st.vars.length)) := by
  intro order
  induction order with
  | nil =>
    intro st vis ch
    simp [roundFold]
  | cons e rest ih =>
    intro st vis ch
    obtain ⟨g, d⟩ := e
    rw [roundFold]
    rcases hA : analyzeFunctionCalls cat pkg reg st vis g d with ⟨st2, vis2⟩
    simp only []
    rw [ih]
    have hm1 : st.vars.length ≤ st2.vars.length := by
      have hg := flowGrows_analyzeFunctionCalls cat pkg reg st vis g d
      rw [hA] at hg
      exact hg.1.2.1
    have hm2 : st2.vars.length
        ≤ (roundFold cat pkg reg (st2, vis2, ch || decide (st2.vars.length > st.vars.length)) rest).1.vars.length :=
      (flowGrows_roundFold cat pkg reg rest st2 vis2 _).1.2.1
    rw [Bool.or_assoc]
    rw [decide_growth_or st.vars.length st2.vars.length _ hm1 hm2]

theorem roundRun_nochange_backward (cat : List sensitiveField) (pkg : String)
    (reg : Registry) (st : TaintState) (o : List (Symbol × FuncDecl))
    (h : (roundRun cat pkg reg st o).2 = false) :
    ∀ u, (lookupA (roundRun cat pkg reg st o).1.vars u).isSome →
      (lookupA st.vars u).isSome := by
  intro u hu
  rw [roundRun_eq] at h hu
  rw [roundFold_changed] at h
  simp only [Bool.false_or, decide_eq_false_iff_not, not_lt] at h
  have hg := flowGrows_roundFold cat pkg reg o st [] false
  have hlen : (roundFold cat pkg reg (st, [], false) o).1.vars.length
      = st.vars.length := le_antisymm h hg.1.2.1
  exact hg.1.2.2 hlen u hu

theorem taintGroup_hits (apos : Nat) (src : SensitiveSource) :
    ∀ (names : List ParamName) (st : TaintState) (pn : ParamName) (w : Symbol),
    pn ∈ names → pn.defSym = some w → w.kind = SymKind.var →
    (lookupA (taintGroup st apos src names).vars w).isSome := by
  intro names
  induction names with
  | nil => intro st pn w h; simp at h
  | cons pn0 rest ih =>
    intro st pn w hmem hdef hk
    rw [taintGroup]
    rcases List.mem_cons.mp hmem with he | hrest
    · subst he
      rw [hdef]
      simp only []
      rw [if_pos hk]
      refine (flowGrows_taintGroup apos src rest _).1.1 w ?_
      simp only []
      rw [lookupA_insertA_self]
      rfl
    · exact ih _ pn w hrest hdef hk

theorem mapArgs_link_taints (cat : List sensitiveField) (params : List ParamGroup) :
    ∀ (args : List Expr) (j paramIdx : Nat) (st : TaintState) (an : String)
      (v : Symbol) (ad : Option Symbol) (aty : Option GoType) (ap : Nat)
      (grpj : ParamGroup) (pn : ParamName) (w : Symbol),
    args.get? j = some (.ident an (some v) ad aty ap) →
    (∀ k, k < j → ∃ grp, params.get? (paramIdx + k) = some grp ∧ grp.names.length > 0) →
    params.get? (paramIdx + j) = some grpj →
    pn ∈ grpj.names → pn.defSym = some w → w.kind = SymKind.var →
    v.kind = SymKind.var → (lookupA st.vars v).isSome →
    (lookupA (mapArgsToParams cat params st args paramIdx).vars w).isSome := by
  intro args
  induction args with
  | nil =>
    intro j paramIdx st an v ad aty ap grpj pn w harg
    simp at harg
  | cons a as2 ih =>
    intro j paramIdx st an v ad aty ap grpj pn w harg hgroups hgrpj hpmem hpdef hwk hvk hv
    cases j with
    | zero =>
      rw [List.get?_cons_zero] at harg
      injection harg with ha
      subst ha
      rw [Nat.add_zero] at hgrpj
      rw [mapArgsToParams, hgrpj]
      simp only []
      have hc : checkSensitiveExpr cat st (.ident an (some v) ad aty ap)
          = lookupA st.vars v := by
        rw [checkSensitiveExpr]
        rw [if_pos hvk]
      rw [hc]
      obtain ⟨src, hsrc⟩ := Option.isSome_iff_exists.mp hv
      rw [hsrc]
      have hW := taintGroup_hits (posOfE (.ident an (some v) ad aty ap)) src
        grpj.names st pn w hpmem hpdef hwk
      exact (flowGrows_mapArgs cat params as2 _ _).1.1 w hW
    | succ j2 =>
      rw [List.get?_cons_succ] at harg
      obtain ⟨grp0, hg0, hn0⟩ := hgroups 0 (Nat.succ_pos j2)
      rw [Nat.add_zero] at hg0
      rw [mapArgsToParams, hg0]
      simp only [if_pos hn0]
      have hgroups2 : ∀ k, k < j2 →
          ∃ grp, params.get? (paramIdx + 1 + k) = some grp ∧ grp.names.length > 0 := by
        intro k hk
        obtain ⟨grp, h1, h2⟩ := hgroups (k + 1) (by omega)
        refine ⟨grp, ?_, h2⟩
        rwa [show paramIdx + (k + 1) = paramIdx + 1 + k by omega] at h1
      have hgrpj2 : params.get? (paramIdx + 1 + j2) = some grpj := by
        rwa [show paramIdx + (j2 + 1) = paramIdx + 1 + j2 by omega] at hgrpj
      cases hc : checkSensitiveExpr cat st a with
      | none =>
        exact ih j2 (paramIdx + 1) st an v ad aty ap grpj pn w harg hgroups2
          hgrpj2 hpmem hpdef hwk hvk hv
      | some src =>
        have hv2 : (lookupA (taintGroup st (posOfE a) src grp0.names).vars v).isSome :=
          (flowGrows_taintGroup (posOfE a) src grp0.names st).1.1 v hv
        exact ih j2 (paramIdx + 1) _ an v ad aty ap grpj pn w harg hgroups2
          hgrpj2 hpmem hpdef hwk hvk hv2

end Leakhound

namespace Leakhound

theorem analyzeCall_link_taints (cat : List sensitiveField) (pkg : String)
    (reg : Registry) (st : TaintState) (fn : Expr) (args : List Expr)
    (cty : Option GoType) (cpos : Nat) (callee : Symbol) (cdecl : FuncDecl)
    (j : Nat) (an : String) (v : Symbol) (ad : Option Symbol)
    (aty : Option GoType) (ap : Nat) (grpj : ParamGroup) (pn : ParamName)
    (w : Symbol)
    (hfn : getFunctionObject fn = some callee)
    (hpkg : callee.pkg = some pkg)
    (hlk : lookupReg reg callee = some cdecl)
    (harg : args.get? j = some (.ident an (some v) ad aty ap))
    (hgroups : ∀ k, k < j → ∃ grp, cdecl.params.get? k = some grp ∧ grp.names.length > 0)
    (hgrpj : cdecl.params.get? j = some grpj)
    (hpmem : pn ∈ grpj.names) (hpdef : pn.defSym = some w)
    (hwk : w.kind = SymKind.var) (hvk : v.kind = SymKind.var)
    (hv : (lookupA st.vars v).isSome) :
    (lookupA (analyzeCall cat pkg reg st (.call fn args cty cpos)).vars w).isSome := by
  rw [analyzeCall, hfn]
  simp only []
  rw [hpkg]
  simp only []
  rw [if_neg (fun hne => hne rfl)]
  rw [hlk]
  refine mapArgs_link_taints cat cdecl.params args j 0 st an v ad aty ap grpj pn w
    harg ?_ ?_ hpmem hpdef hwk hvk hv
  · intro k hk
    obtain ⟨grp, h1, h2⟩ := hgroups k hk
    exact ⟨grp, by rwa [Nat.zero_add], h2⟩
  · rwa [Nat.zero_add]

theorem analyzeCalls_link_taints (cat : List sensitiveField) (pkg : String)
    (reg : Registry) (fn : Expr) (args : List Expr)
    (cty : Option GoType) (cpos : Nat) (callee : Symbol) (cdecl : FuncDecl)
    (j : Nat) (an : String) (v : Symbol) (ad : Option Symbol)
    (aty : Option GoType) (ap : Nat) (grpj : ParamGroup) (pn : ParamName)
    (w : Symbol)
    (hfn : getFunctionObject fn = some callee)
    (hpkg : callee.pkg = some pkg)
    (hlk : lookupReg reg callee = some cdecl)
    (harg : args.get? j = some (.ident an (some v) ad aty ap))
    (hgroups : ∀ k, k < j → ∃ grp, cdecl.params.get? k = some grp ∧ grp.names.length > 0)
    (hgrpj : cdecl.params.get? j = some grpj)
    (hpmem : pn ∈ grpj.names) (hpdef : pn.defSym = some w)
    (hwk : w.kind = SymKind.var) (hvk : v.kind = SymKind.var) :
    ∀ (cs : List Expr) (st : TaintState),
    (Expr.call fn args cty cpos) ∈ cs →
    (lookupA st.vars v).isSome →
    (lookupA (analyzeCalls cat pkg reg st cs).vars w).isSome := by
  intro cs
  induction cs with
  | nil => intro st h; simp at h
  | cons c rest ih =>
    intro st hmem hv
    rw [analyzeCalls]
    rcases List.mem_cons.mp hmem with he | hrest
    · rw [← he]
      have hW := analyzeCall_link_taints cat pkg reg st fn args cty cpos callee
        cdecl j an v ad aty ap grpj pn w hfn hpkg hlk harg hgroups hgrpj
        hpmem hpdef hwk hvk hv
      exact (flowGrows_analyzeCalls cat pkg reg rest _).1.1 w hW
    · have hv2 := (flowGrows_analyzeCall cat pkg reg st c).1.1 v hv
      exact ih _ hrest hv2

theorem roundFold_process_taints (cat : List sensitiveField) (pkg : String)
    (reg : Registry) (g : Symbol) (gdecl : FuncDecl) (v w : Symbol)
    (hproc : ∀ st vis, g ∉ vis → (lookupA st.vars v).isSome →
      (lookupA (analyzeFunctionCalls cat pkg reg st vis g gdecl).1.vars w).isSome) :
    ∀ (order : List (Symbol × FuncDecl)) (st : TaintState)
      (vis : List Symbol) (ch : Bool),
    (g, gdecl) ∈ order → (order.map Prod.fst).Nodup → g ∉ vis →
    (lookupA st.vars v).isSome →
    (lookupA (roundFold cat pkg reg (st, vis, ch) order).1.vars w).isSome := by
  intro order
  induction order with
  | nil => intro st vis ch h; simp at h
  | cons e rest ih =>
    intro st vis ch hmem hnd hgv hv
    obtain ⟨g0, d0⟩ := e
    rw [roundFold]
    rcases hA : analyzeFunctionCalls cat pkg reg st vis g0 d0 with ⟨st2, vis2⟩
    simp only []
    rcases List.mem_cons.mp hmem with he | hrest
    · injection he with hg hd
      subst hg
      subst hd
      have hW := hproc st vis hgv hv
      rw [hA] at hW
      exact (flowGrows_roundFold cat pkg reg rest st2 vis2 _).1.1 w hW
    · have hg0 : g0 ≠ g := by
        intro hgg
        subst hgg
        simp only [List.map_cons] at hnd
        exact (List.nodup_cons.mp hnd).1
          (List.mem_map.mpr ⟨(g0, gdecl), hrest, rfl⟩)
      have hvcases : vis2 = vis ∨ vis2 = g0 :: vis := by
        rw [analyzeFunctionCalls] at hA
        by_cases hin : g0 ∈ vis
        · rw [if_pos hin] at hA
          injection hA with h1 h2
          exact Or.inl h2.symm
        · rw [if_neg hin] at hA
          cases hb : d0.body with
          | none =>
            rw [hb] at hA
            injection hA with h1 h2
            exact Or.inr h2.symm
          | some stmts =>
            rw [hb] at hA
            injection hA with h1 h2
            exact Or.inr h2.symm
      have hvis2 : g ∉ vis2 := by
        rcases hvcases with h | h
        · rw [h]; exact hgv
        · rw [h]
          intro hmem2
          rcases List.mem_cons.mp hmem2 with h2 | h2
          · exact hg0 h2.symm
          · exact hgv h2
      have hv2 : (lookupA st2.vars v).isSome := by
        have hg2 := flowGrows_analyzeFunctionCalls cat pkg reg st vis g0 d0
        rw [hA] at hg2
        exact hg2.1.1 v hv
      have hnd2 : (rest.map Prod.fst).Nodup := by
        simp only [List.map_cons] at hnd
        exact (List.nodup_cons.mp hnd).2
      exact ih st2 vis2 _ hrest hnd2 hvis2 hv2

theorem roundRun_link_taints (cat : List sensitiveField) (pkg : String)
    (reg : Registry) (st : TaintState) (o : List (Symbol × FuncDecl))
    (v w : Symbol) (hlink : ChainLink pkg reg v w)
    (hcov : ∀ e2 ∈ reg, e2 ∈ o) (hnd : (o.map Prod.fst).Nodup)
    (hv : (lookupA st.vars v).isSome) :
    (lookupA (roundRun cat pkg reg st o).1.vars w).isSome := by
  obtain ⟨g, gdecl, hmem, fn, args, cty, cpos, hcall, callee, hfn, hpkgc, cdecl,
    hlk, j, an, ad, aty, ap, harg, hvk, hgroups, grpj, pn, hgrpj, hpmem, hpdef,
    hwk⟩ := hlink
  have hproc : ∀ st2 vis, g ∉ vis → (lookupA st2.vars v).isSome →
      (lookupA (analyzeFunctionCalls cat pkg reg st2 vis g gdecl).1.vars w).isSome := by
    intro st2 vis hgv hv2
    rw [analyzeFunctionCalls, if_neg hgv]
    cases hb : gdecl.body with
    | none =>
      rw [hb] at hcall
      simp [callsInBody] at hcall
    | some stmts =>
      rw [hb] at hcall
      simp only [callsInBody] at hcall
      simp only []
      exact analyzeCalls_link_taints cat pkg reg fn args cty cpos callee cdecl
        j an v ad aty ap grpj pn w hfn hpkgc hlk harg hgroups hgrpj hpmem hpdef
        hwk hvk (stmts.flatMap callsInStmt) st2 hcall hv2
  rw [roundRun_eq]
  exact roundFold_process_taints cat pkg reg g gdecl v w hproc o st [] false
    (hcov _ hmem) hnd (by simp) hv

theorem nochange_closed_chain (cat : List sensitiveField) (pkg : String)
    (reg : Registry) (st : TaintState) (o : List (Symbol × FuncDecl))
    (hch : (roundRun cat pkg reg st o).2 = false)
    (hcov : ∀ e2 ∈ reg, e2 ∈ o) (hnd : (o.map Prod.fst).Nodup) :
    ∀ (vs : List Symbol) (v0 : Symbol), Chain pkg reg v0 vs →
    (lookupA st.vars v0).isSome →
    ∀ u ∈ vs, (lookupA st.vars u).isSome := by
  intro vs
  induction vs with
  | nil => intro v0 _ _ u hu; simp at hu
  | cons w rest ih =>
    intro v0 hchain hv0 u hu
    obtain ⟨hlink, hrest⟩ := hchain
    have hw2 := roundRun_link_taints cat pkg reg st o v0 w hlink hcov hnd hv0
    have hw := roundRun_nochange_backward cat pkg reg st o hch w hw2
    rcases List.mem_cons.mp hu with he | hm
    · rw [he]; exact hw
    · exact ih w hrest hw u hm

theorem runRounds_chain (cat : List sensitiveField) (pkg : String)
    (reg : Registry) :
    ∀ (orders : List (List (Symbol × FuncDecl))) (vs : List Symbol)
      (v0 : Symbol) (st : TaintState),
    (∀ o ∈ orders, (∀ e2 ∈ reg, e2 ∈ o) ∧ (o.map Prod.fst).Nodup) →
    Chain pkg reg v0 vs →
    vs.length ≤ orders.length →
    (lookupA st.vars v0).isSome →
    ∀ w ∈ vs, (lookupA (runRounds cat pkg reg orders st).vars w).isSome := by
  intro orders
  induction orders with
  | nil =>
    intro vs v0 st _ _ hlen _ w hw
    have hnil : vs = [] := List.eq_nil_of_length_eq_zero (Nat.le_zero.mp hlen)
    subst hnil
    simp at hw
  | cons o os ih =>
    intro vs v0 st hord hchain hlen hseed w hw
    have ho := hord o (List.mem_cons_self o os)
    rw [runRounds_cons]
    cases hch : (roundRun cat pkg reg st o).2 with
    | false =>
      simp only [hch, Bool.false_eq_true, if_false]
      have hwst := nochange_closed_chain cat pkg reg st o hch ho.1 ho.2 vs v0
        hchain hseed w hw
      exact (flowGrows_roundRun cat pkg reg st o).1.1 w hwst
    | true =>
      simp only [hch, if_true]
      cases vs with
      | nil => simp at hw
      | cons w0 rest =>
        obtain ⟨hlink, hrest⟩ := hchain
        have hw0 := roundRun_link_taints cat pkg reg st o v0 w0 hlink ho.1 ho.2 hseed
        have hords : ∀ o2 ∈ os, (∀ e2 ∈ reg, e2 ∈ o2) ∧ (o2.map Prod.fst).Nodup :=
          fun o2 h2 => hord o2 (List.mem_cons_of_mem o h2)
        have hlen2 : rest.length ≤ os.length := by
          simp only [List.length_cons] at hlen
          omega
        rcases List.mem_cons.mp hw with he | hm
        · rw [he]
          exact (flowGrows_runRounds cat pkg reg os _).1.1 w0 hw0
        · exact ih rest w0 _ hords hrest hlen2 hw0 w hm

/-- Claim C2: for every chain of same-package propagation links of depth at
most five, starting from a variable tainted before the fixed-point expansion,
the expansion (at most five rounds over arbitrary full iteration orders of
the registry, stopping early when nothing new is tainted) puts every chained
parameter symbol, in particular the one at the deepest level, into
sensitiveVars. -/
theorem taint_chain_within_five_rounds (cat : List sensitiveField)
    (pkg : String) (reg : Registry) (orders : List (List (Symbol × FuncDecl)))
    (st0 : TaintState) (v0 : Symbol) (vs : List Symbol)
    (hmax : orders.length = 5)
    (hord : ∀ o ∈ orders, (∀ e2 ∈ reg, e2 ∈ o) ∧ (o.map Prod.fst).Nodup)
    (hchain : Chain pkg reg v0 vs)
    (hdepth : vs.length ≤ 5)
    (hseed : (lookupA st0.vars v0).isSome) :
    ∀ w ∈ vs, (lookupA (AnalyzeDataFlow cat pkg reg orders st0).vars w).isSome := by
  rw [AnalyzeDataFlow]
  exact runRounds_chain cat pkg reg orders vs v0 st0 hord hchain
    (by omega) hseed

/-- Concrete application of claim C2: the depth-one chain main calls f1(x)
with x tainted puts the parameter p1 into sensitiveVars after the run on the
example package. -/
theorem taint_chain_within_five_rounds_witness :
    (lookupA (AnalyzeDataFlow cexCat "main" cexProg ordersFwd
      ⟨[(xSym, wSource)], [], []⟩).vars (pSym 1)).isSome := by
  refine taint_chain_within_five_rounds cexCat "main" cexProg ordersFwd
    ⟨[(xSym, wSource)], [], []⟩ xSym [pSym 1] (by decide) ?_ ?_ (by decide)
    (by decide) (pSym 1) (List.mem_cons_self _ _)
  · intro o ho
    have : o = cexProg := List.eq_of_mem_replicate ho
    subst this
    exact ⟨fun e2 h => h, by decide⟩
  · refine ⟨⟨mainSym, mainDecl, ?_, .ident "f1" (some (fSym 1)) none none 104,
      [xUse], none, 105, ?_, fSym 1, rfl, rfl, fDecl 1, rfl, 0, "x", none,
      some .basic, 103, rfl, rfl, ?_, ⟨[pDefName 1]⟩, pDefName 1, rfl, ?_,
      rfl, rfl⟩, trivial⟩
    · rw [cexProg]
      exact List.mem_cons_self _ _
    · simp [callsInBody, mainDecl, callsInStmt, callsInExpr, mainAssign,
        callF1, xUse, xDef, passwordSel, uIdent]
    · intro k hk
      omega
    · exact List.mem_cons_self _ _

end Leakhound

namespace Leakhound

/-- Claim C7, counterexample: two runs of the whole analysis on identical
inputs (same catalog, no configuration, same package, same type environment,
same declarations) but with different iteration orders of the funcDefs map
(forward and reversed full enumerations of the same registry, Go map
iteration order being arbitrary) produce different Finding sequences: the
depth-six chain is detected under the forward orders and missed under the
reversed ones because the five-round ceiling binds. -/
theorem analyze_order_dependent :
    analyzePackage cexCat none "main" [] cexProg ordersFwd
      ≠ analyzePackage cexCat none "main" [] cexProg ordersRev := by
  decide

/-- Claim C7 as amended: the analysis output is a function of the typed input
and of the per-round iteration orders of the registry map, so two runs with
identical inputs and identical registry iteration orders produce identical
Finding sequences; with different orders the sequences may differ when the
five-round ceiling binds. -/
theorem analyze_deterministic_given_orders (cat : List sensitiveField)
    (cfg : Option Config) (pkg : String) (env : TypeEnv) (prog : Registry)
    (o1 o2 : List (List (Symbol × FuncDecl))) (h : o1 = o2) :
    analyzePackage cat cfg pkg env prog o1
      = analyzePackage cat cfg pkg env prog o2 := by
  rw [h]

/-- Concrete application of the amended claim C7 on the example package. -/
theorem analyze_deterministic_given_orders_witness :
    analyzePackage cexCat none "main" [] cexProg ordersFwd
      = analyzePackage cexCat none "main" [] cexProg ordersFwd :=
  analyze_deterministic_given_orders cexCat none "main" [] cexProg
    ordersFwd ordersFwd rfl

end Leakhound
